import Mathlib

/-
  A shallow embedding of the task-pipeline scheduling core of roc-toolkit
  (src/src/modules/roc_pipeline/task_pipeline.h).  The repository ships only
  the header: the class, its data members, the enums, and extensive behaviour
  documentation.  The method bodies (task_pipeline.cpp) are not part of the
  tree, so every behavioural definition below is modelled from the
  specification text and is marked as such in its doc comment.  Names follow
  the header wherever Lean allows.

  Concurrency is rendered sequentially: each entry point is an atomic state
  transformation, interleavings are sequences of operations (`Op`), and the
  values that concurrent threads would observe (the pending_frames_ counter,
  the clock) are explicit state components.
-/

set_option maxHeartbeats 1000000

namespace TaskPipeline

/-- Task states, from task_pipeline.h line 207:
    enum { StateNew, StateScheduled, StateFinished }. -/
inductive TaskState where
  | StateNew
  | StateScheduled
  | StateFinished
deriving DecidableEq

open TaskState

/-- Asynchronous-processing states, from task_pipeline.h line 307:
    enum ProcState { ProcNotScheduled, ProcScheduled, ProcRunning }. -/
inductive ProcState where
  | ProcNotScheduled
  | ProcScheduled
  | ProcRunning
deriving DecidableEq

open ProcState

/-- Task record, from task_pipeline.h lines 194-223.  The semaphore and
    completion-handler pointers (sem_, handler_) are modelled as presence
    flags, since only their presence or absence is observable here. -/
structure Task where
  state_ : TaskState
  success_ : Bool
  sem_ : Bool
  handler_ : Bool
deriving DecidableEq

/-- Modelled from the spec: the Task constructor (task_pipeline.cpp is not in
    the tree).  A task is created by the submitter in NEW state; the result
    flag is meaningful only once the state is FINISHED. -/
def Task.init : Task :=
  { state_ := StateNew, success_ := false, sem_ := false, handler_ := false }

/-- Modelled from the spec: Task::success (declared at task_pipeline.h line
    199, body not in the tree).  Checks that the task finished and succeeded. -/
def Task.success (t : Task) : Bool :=
  t.state_ == StateFinished && t.success_

/-- Task-processing statistics, from task_pipeline.h lines 247-274. -/
structure Stats where
  task_processed_total : Nat
  task_processed_in_place : Nat
  task_processed_in_frame : Nat
  preemptions : Nat
  scheduler_calls : Nat
  scheduler_cancellations : Nat
deriving DecidableEq

/-- The Stats constructor (task_pipeline.h lines 266-273): all counters zero. -/
def Stats.init : Stats :=
  { task_processed_total := 0, task_processed_in_place := 0,
    task_processed_in_frame := 0, preemptions := 0,
    scheduler_calls := 0, scheduler_cancellations := 0 }

/-- Modelled from the spec: the constants derived at construction from the
    TaskConfig, the sample rate and the channel mask (task_pipeline.h lines
    329-338).  Times are nanoseconds (Int).  expected_task_cost and
    safety_margin are the config-provided constants the spec uses in the
    window-admission formulas. -/
structure PipelineConsts where
  enable_precise_task_scheduling : Bool
  min_samples_between_tasks_ : Nat
  max_samples_between_tasks_ : Nat
  no_task_proc_half_interval_ : Int
  expected_task_cost : Int
  safety_margin : Int
  nanos_per_sample : Int
deriving DecidableEq

/-- The pluggable pipeline hooks supplied by the subclassing pipeline
    (task_pipeline.h lines 298-304): process one task (by task id), process
    one frame or sub-frame (by its size in samples). -/
structure Hooks where
  process_task_imp : Nat → Bool
  process_frame_imp : Nat → Bool

/-- Observable events emitted by the coordinator: hook invocations and the
    steps of the task-completion protocol. -/
inductive Event where
  | frameCall (nsamples : Nat)
  | taskCall (tid : Nat)
  | storeSuccess (tid : Nat) (v : Bool)
  | storeFinished (tid : Nat)
  | postWaiter (tid : Nat)
  | callHandler (tid : Nat)
deriving DecidableEq

/-- Whether an event is a process_frame_imp invocation. -/
def Event.isFrameCall : Event → Bool
  | Event.frameCall _ => true
  | _ => false

/-- Submission error, from the spec's error-handling design: AlreadyScheduled
    is raised when a task is submitted while not in NEW state. -/
inductive SubmitError where
  | alreadyScheduled
deriving DecidableEq

/-- Coordinator state, from task_pipeline.h lines 340-374.  The task store
    maps task ids to task records (tasks are owned by submitters; the store
    stands for the heap they live on).  The clock value now_ models the
    subclass's timestamp_imp. -/
structure PipelineState where
  task_queue_ : List Nat
  tasks_ : Nat → Task
  pending_tasks_ : Int
  pending_frames_ : Int
  processing_state_ : ProcState
  next_frame_deadline_ : Int
  now_ : Int
  samples_processed_ : Nat
  enough_samples_to_process_tasks_ : Bool
  stats_ : Stats

/-- The freshly constructed pipeline: empty queue, every task record still
    owned by its submitter in NEW state, all counters zero. -/
def PipelineState.init : PipelineState :=
  { task_queue_ := [], tasks_ := fun _ => Task.init,
    pending_tasks_ := 0, pending_frames_ := 0,
    processing_state_ := ProcNotScheduled,
    next_frame_deadline_ := 0, now_ := 0,
    samples_processed_ := 0, enough_samples_to_process_tasks_ := false,
    stats_ := Stats.init }

/-- Pointwise update of the task store. -/
def set_task (tasks : Nat → Task) (tid : Nat) (t : Task) : Nat → Task :=
  fun x => if x = tid then t else tasks x

/-- How much pending tasks are there (task_pipeline.h line 285); returns the
    pending_tasks_ counter as a size. -/
def num_pending_tasks (s : PipelineState) : Nat :=
  s.pending_tasks_.toNat

/-- How much pending frames are there (task_pipeline.h line 288); returns the
    pending_frames_ counter as a size. -/
def num_pending_frames (s : PipelineState) : Nat :=
  s.pending_frames_.toNat

/-- Get task processing statistics (task_pipeline.h line 292). -/
def get_stats_ref (s : PipelineState) : Stats :=
  s.stats_

/-- Modelled from the spec: interframe_task_processing_allowed_ (declared at
    task_pipeline.h lines 326-327, body not in the tree).  Between frames,
    tasks may run as long as now plus the expected task cost is still before
    the next frame deadline minus the no-task-proc half interval. -/
def interframe_task_processing_allowed_ (cfg : PipelineConsts)
    (now next_frame_deadline : Int) : Bool :=
  decide (now + cfg.expected_task_cost
    < next_frame_deadline - cfg.no_task_proc_half_interval_)

/-- Modelled from the spec: a time point lies inside the no-task-proc
    exclusion window iff its distance to the next frame deadline is at most
    the half interval. -/
def in_no_task_proc_window (cfg : PipelineConsts)
    (t next_frame_deadline : Int) : Bool :=
  decide (|t - next_frame_deadline| ≤ cfg.no_task_proc_half_interval_)

/-- Modelled from the spec: subframe_task_processing_allowed_ (declared at
    task_pipeline.h line 322, body not in the tree).  Between sub-frames,
    tasks may run while now plus the expected task cost plus the configured
    safety margin is still before the next frame deadline minus the
    no-task-proc half interval. -/
def subframe_task_processing_allowed_ (cfg : PipelineConsts)
    (now next_frame_deadline : Int) : Bool :=
  decide (now + cfg.expected_task_cost + cfg.safety_margin
    < next_frame_deadline - cfg.no_task_proc_half_interval_)

/-- Modelled from the spec: update_next_frame_deadline_ (declared at
    task_pipeline.h lines 324-325, body not in the tree).  The next frame is
    expected at the frame start plus the duration of the frame's samples. -/
def update_next_frame_deadline_ (cfg : PipelineConsts)
    (frame_start_time : Int) (frame_size : Nat) : Int :=
  frame_start_time + (frame_size : Int) * cfg.nanos_per_sample

/-- Modelled from the spec: process_task_ (declared at task_pipeline.h line
    318, body not in the tree).  The completion protocol for one task:
    execute the process_task_imp hook, store the result into success_, store
    FINISHED into state_, then post the waiter if present and then invoke the
    handler if present.  Returns the completed record and the event trace. -/
def process_task_ (hooks : Hooks) (tid : Nat) (t : Task) : Task × List Event :=
  let r := hooks.process_task_imp tid
  ({ t with success_ := r, state_ := StateFinished },
   [Event.taskCall tid, Event.storeSuccess tid r, Event.storeFinished tid]
     ++ (if t.sem_ then [Event.postWaiter tid] else [])
     ++ (if t.handler_ then [Event.callHandler tid] else []))

/-- Completes every task of a list of popped task ids, in order, threading
    the task store and concatenating the completion traces. -/
def process_queue_ (hooks : Hooks) :
    List Nat → (Nat → Task) → (Nat → Task) × List Event
  | [], tasks => (tasks, [])
  | tid :: rest, tasks =>
    let pt := process_task_ hooks tid (tasks tid)
    let further := process_queue_ hooks rest (set_task tasks tid pt.1)
    (further.1, pt.2 ++ further.2)

/-- Pops and completes every task of the pending queue, decrementing the
    pending_tasks_ counter once per pop.  Shared by the in-place fast path,
    by process_tasks, and by the in-frame task windows. -/
def drain_task_queue_ (hooks : Hooks) (s : PipelineState) :
    PipelineState × List Event :=
  let res := process_queue_ hooks s.task_queue_ s.tasks_
  ({ s with tasks_ := res.1, task_queue_ := [],
            pending_tasks_ :=
              s.pending_tasks_ - (s.task_queue_.length : Int) }, res.2)

/-- Modelled from the spec: schedule_async_task_processing_ (declared at
    task_pipeline.h line 315, body not in the tree).  Priority rule: if a
    frame is pending the caller yields and does nothing.  Otherwise asks the
    external scheduler for a process_tasks invocation, moving
    NOT_SCHEDULED to SCHEDULED; idempotent when already SCHEDULED. -/
def schedule_async_task_processing_ (s : PipelineState) : PipelineState :=
  if 0 < s.pending_frames_ then s
  else if s.processing_state_ = ProcNotScheduled then
    { s with processing_state_ := ProcScheduled,
             stats_ := { s.stats_ with
               scheduler_calls := s.stats_.scheduler_calls + 1 } }
  else s

/-- Modelled from the spec: cancel_async_task_processing_ (declared at
    task_pipeline.h line 316, body not in the tree).  Revokes a pending
    scheduler call: SCHEDULED moves to NOT_SCHEDULED, otherwise no-op. -/
def cancel_async_task_processing_ (s : PipelineState) : PipelineState :=
  if s.processing_state_ = ProcScheduled then
    { s with processing_state_ := ProcNotScheduled,
             stats_ := { s.stats_ with
               scheduler_cancellations := s.stats_.scheduler_cancellations + 1 } }
  else s

/-- Modelled from the spec: the push step of submission.  Marks the task
    SCHEDULED, records the waiter and handler presence, links the record at
    the queue tail and increments pending_tasks_. -/
def schedule_push_ (s : PipelineState) (tid : Nat)
    (hasHandler hasWaiter : Bool) : PipelineState :=
  { s with
    tasks_ := set_task s.tasks_ tid
      { s.tasks_ tid with state_ := StateScheduled,
                          sem_ := hasWaiter, handler_ := hasHandler },
    task_queue_ := s.task_queue_ ++ [tid],
    pending_tasks_ := s.pending_tasks_ + 1 }

/-- Modelled from the spec: the in-place fast path of submission.  With the
    pipeline mutex held, drains the pending queue, accounting the processed
    tasks as in-place; if tasks remain afterwards, arranges asynchronous
    processing. -/
def schedule_fast_path_ (hooks : Hooks) (s1 : PipelineState) :
    PipelineState × List Event :=
  let n := s1.task_queue_.length
  let d := drain_task_queue_ hooks s1
  let s2 : PipelineState := { d.1 with stats_ := { s1.stats_ with
    task_processed_total := s1.stats_.task_processed_total + n,
    task_processed_in_place := s1.stats_.task_processed_in_place + n } }
  let s3 : PipelineState :=
    if 0 < s2.pending_tasks_ then schedule_async_task_processing_ s2 else s2
  (s3, d.2)

/-- Modelled from the spec: schedule_and_maybe_process_task_ (declared at
    task_pipeline.h line 312, body not in the tree).  Rejects with
    AlreadyScheduled unless the task is NEW; otherwise pushes it, then either
    runs the in-place fast path (no frame pending and the current time
    admits interframe task processing: drain the queue under the pipeline
    mutex) or takes the slow path and arranges asynchronous processing
    (which itself yields when a frame is pending). -/
def schedule_and_maybe_process_task_ (hooks : Hooks) (cfg : PipelineConsts)
    (s : PipelineState) (tid : Nat) (hasHandler hasWaiter : Bool) :
    Option SubmitError × PipelineState × List Event :=
  if (s.tasks_ tid).state_ ≠ StateNew then
    (some SubmitError.alreadyScheduled, s, [])
  else
    let s1 := schedule_push_ s tid hasHandler hasWaiter
    if s1.pending_frames_ = 0
        && interframe_task_processing_allowed_ cfg s1.now_
             s1.next_frame_deadline_ then
      let f := schedule_fast_path_ hooks s1
      (none, f.1, f.2)
    else
      (none, schedule_async_task_processing_ s1, [])

/-- Enqueue a task for asynchronous execution (task_pipeline.h line 236);
    modelled from the spec: attaches the completion handler and no waiter. -/
def schedule (hooks : Hooks) (cfg : PipelineConsts) (s : PipelineState)
    (tid : Nat) : Option SubmitError × PipelineState × List Event :=
  schedule_and_maybe_process_task_ hooks cfg s tid true false

/-- Modelled from the spec: process_tasks (task_pipeline.h line 243, body not
    in the tree).  Marks the processing state RUNNING, then: with no pending
    tasks, exits; with a pending frame, preempts (counts a preemption and
    yields); inside the interframe window, drains the queue; with the window
    closed, exits and re-arms the scheduler if tasks remain and no frame is
    pending.  Every exit path leaves NOT_SCHEDULED unless re-armed. -/
def process_tasks (hooks : Hooks) (cfg : PipelineConsts) (s : PipelineState) :
    PipelineState × List Event :=
  let s0 := { s with processing_state_ := ProcRunning }
  if s0.pending_tasks_ ≤ 0 then
    ({ s0 with processing_state_ := ProcNotScheduled }, [])
  else if 0 < s0.pending_frames_ then
    ({ s0 with processing_state_ := ProcNotScheduled,
               stats_ := { s0.stats_ with
                 preemptions := s0.stats_.preemptions + 1 } }, [])
  else if interframe_task_processing_allowed_ cfg s0.now_
            s0.next_frame_deadline_ then
    let n := s0.task_queue_.length
    let d := drain_task_queue_ hooks s0
    ({ d.1 with processing_state_ := ProcNotScheduled,
                stats_ := { s0.stats_ with
                  task_processed_total :=
                    s0.stats_.task_processed_total + n } }, d.2)
  else
    (schedule_async_task_processing_
      { s0 with processing_state_ := ProcNotScheduled }, [])

/-- Modelled from the spec: the sub-frame sizes the precise-scheduling
    splitter produces for a frame of n samples: chunks of at most
    max_samples_between_tasks samples each (fuel-indexed recursion; the fuel
    equals n at the outer call and never runs out there). -/
def subframe_sizes_go (maxs : Nat) : Nat → Nat → List Nat
  | _, 0 => []
  | 0, n + 1 => [n + 1]
  | fuel + 1, n + 1 =>
    if maxs = 0 then [n + 1]
    else min maxs (n + 1) :: subframe_sizes_go maxs fuel (n + 1 - min maxs (n + 1))

/-- The sub-frame sizes for a frame of n samples. -/
def subframe_sizes (maxs n : Nat) : List Nat :=
  subframe_sizes_go maxs n n

/-- Modelled from the spec: the per-sub-frame sample accounting: update
    samples_processed_ and raise enough_samples_to_process_tasks_ once it
    reaches min_samples_between_tasks. -/
def account_subframe_ (cfg : PipelineConsts) (s : PipelineState)
    (sz : Nat) : PipelineState :=
  let sp := s.samples_processed_ + sz
  { s with samples_processed_ := sp,
           enough_samples_to_process_tasks_ :=
             s.enough_samples_to_process_tasks_
               || decide (cfg.min_samples_between_tasks_ ≤ sp) }

/-- Modelled from the spec: start_subframe_task_processing_ (declared at
    task_pipeline.h line 321, body not in the tree).  An in-frame task window
    opens when enough samples accumulated, the sub-frame window admits, and
    no further frame is pending (our own frame holds pending_frames_ at 1). -/
def start_subframe_task_processing_ (cfg : PipelineConsts)
    (s : PipelineState) : Bool :=
  s.enough_samples_to_process_tasks_
    && subframe_task_processing_allowed_ cfg s.now_ s.next_frame_deadline_
    && decide (s.pending_frames_ ≤ 1)

/-- Modelled from the spec: the in-frame task window between two sub-frames:
    if the window admits and tasks are pending, process pending tasks and
    reset the sample accounting. -/
def process_in_frame_tasks_ (hooks : Hooks) (cfg : PipelineConsts)
    (s : PipelineState) : PipelineState × List Event :=
  if start_subframe_task_processing_ cfg s && !s.task_queue_.isEmpty then
    let n := s.task_queue_.length
    let d := drain_task_queue_ hooks s
    ({ d.1 with samples_processed_ := 0,
                enough_samples_to_process_tasks_ := false,
                stats_ := { s.stats_ with
                  task_processed_total := s.stats_.task_processed_total + n,
                  task_processed_in_frame :=
                    s.stats_.task_processed_in_frame + n } }, d.2)
  else (s, [])

/-- Modelled from the spec: the precise-scheduling frame body.  Each
    sub-frame is processed by one process_frame_imp call; between two
    sub-frames the in-frame task window may run.  Returns the conjunction of
    the sub-frame results, the final state and the event trace. -/
def process_subframes (hooks : Hooks) (cfg : PipelineConsts) :
    List Nat → PipelineState → Bool × PipelineState × List Event
  | [], s => (true, s, [])
  | sz :: rest, s =>
    let r := hooks.process_frame_imp sz
    let s1 := account_subframe_ cfg s sz
    let d := if rest.isEmpty then (s1, ([] : List Event))
             else process_in_frame_tasks_ hooks cfg s1
    let further := process_subframes hooks cfg rest d.1
    (r && further.1, further.2.1,
     Event.frameCall sz :: (d.2 ++ further.2.2))

/-- Modelled from the spec: process_frame_and_tasks_simple_ (declared at
    task_pipeline.h line 309, body not in the tree).  With precise scheduling
    disabled the frame is not split and no task runs inside the call: one
    process_frame_imp call on the whole frame. -/
def process_frame_and_tasks_simple_ (hooks : Hooks) (s : PipelineState)
    (nsamples : Nat) : Bool × PipelineState × List Event :=
  (hooks.process_frame_imp nsamples, s, [Event.frameCall nsamples])

/-- Modelled from the spec: the entry half of process_frame_and_tasks (steps
    1-2): increment pending_frames_ and cancel any scheduled asynchronous
    task processing.  Split from the body so that operations of other
    threads can be interleaved while this call is announcing itself. -/
def process_frame_and_tasks_enter_ (s : PipelineState) : PipelineState :=
  cancel_async_task_processing_
    { s with pending_frames_ := s.pending_frames_ + 1 }

/-- Modelled from the spec: the body-and-exit half of process_frame_and_tasks
    (steps 4-7): record the frame start, publish the next frame deadline, run
    the precise or the simple body, decrement pending_frames_, and on exit
    either arrange asynchronous processing for remaining tasks (the priority
    guard applies) or ensure NOT_SCHEDULED.  The pending_frames_ guard
    reflects that this half only runs below a matching entry half. -/
def process_frame_and_tasks_leave_ (hooks : Hooks) (cfg : PipelineConsts)
    (s : PipelineState) (nsamples : Nat) : Bool × PipelineState × List Event :=
  if s.pending_frames_ ≤ 0 then (true, s, [])
  else
    let s1 := { s with next_frame_deadline_ :=
                  update_next_frame_deadline_ cfg s.now_ nsamples }
    let body :=
      if cfg.enable_precise_task_scheduling then
        process_subframes hooks cfg
          (subframe_sizes cfg.max_samples_between_tasks_ nsamples) s1
      else
        process_frame_and_tasks_simple_ hooks s1 nsamples
    let s2 : PipelineState :=
      { body.2.1 with pending_frames_ := body.2.1.pending_frames_ - 1 }
    let s3 : PipelineState :=
      if 0 < s2.pending_tasks_ then schedule_async_task_processing_ s2
      else { s2 with processing_state_ := ProcNotScheduled }
    (body.1, s3, body.2.2)

/-- Process frame and some of the enqueued tasks (task_pipeline.h line 295);
    modelled from the spec as the entry half followed by the body half. -/
def process_frame_and_tasks (hooks : Hooks) (cfg : PipelineConsts)
    (s : PipelineState) (nsamples : Nat) : Bool × PipelineState × List Event :=
  process_frame_and_tasks_leave_ hooks cfg
    (process_frame_and_tasks_enter_ s) nsamples

/-- The operations concurrent threads may perform on the pipeline, used to
    build arbitrary interleavings.  opTick models the subclass clock moving
    (timestamp_imp returning a new value); the two frame halves let other
    operations run while a frame call is blocked on the pipeline mutex. -/
inductive Op where
  | opTick (t : Int)
  | opSchedule (tid : Nat)
  | opScheduleAndWait (tid : Nat)
  | opProcessTasks
  | opFrameEnter
  | opFrameLeave (nsamples : Nat)
deriving DecidableEq

/-- One operation's effect on the pipeline state. -/
def applyOp (hooks : Hooks) (cfg : PipelineConsts) (s : PipelineState) :
    Op → PipelineState
  | Op.opTick t => { s with now_ := t }
  | Op.opSchedule tid =>
    (schedule_and_maybe_process_task_ hooks cfg s tid true false).2.1
  | Op.opScheduleAndWait tid =>
    (schedule_and_maybe_process_task_ hooks cfg s tid false true).2.1
  | Op.opProcessTasks => (process_tasks hooks cfg s).1
  | Op.opFrameEnter => process_frame_and_tasks_enter_ s
  | Op.opFrameLeave n => (process_frame_and_tasks_leave_ hooks cfg s n).2.1

/-- Run a sequence of operations. -/
def runOps (hooks : Hooks) (cfg : PipelineConsts) :
    PipelineState → List Op → PipelineState
  | s, [] => s
  | s, op :: ops => runOps hooks cfg (applyOp hooks cfg s op) ops

/-- Enqueue a task and wait until it finishes (task_pipeline.h lines
    238-240); modelled from the spec: submits with a waiter attached, blocks
    on the semaphore while other threads run (laterOps), and once the task is
    observed FINISHED returns its success_ flag; none stands for rejection or
    a wait not yet over. -/
def schedule_and_wait (hooks : Hooks) (cfg : PipelineConsts)
    (s : PipelineState) (tid : Nat) (laterOps : List Op) :
    Option Bool × PipelineState :=
  let sub := schedule_and_maybe_process_task_ hooks cfg s tid false true
  match sub.1 with
  | some _ => (none, sub.2.1)
  | none =>
    let s2 := runOps hooks cfg sub.2.1 laterOps
    if (s2.tasks_ tid).state_ = StateFinished
    then (some (s2.tasks_ tid).success_, s2) else (none, s2)

/-- Rank of a task state along its lifecycle NEW, SCHEDULED, FINISHED. -/
def stateRank : TaskState → Nat
  | StateNew => 0
  | StateScheduled => 1
  | StateFinished => 2

/-- Number of transitions of a task into the FINISHED state along a run. -/
def finishCount (hooks : Hooks) (cfg : PipelineConsts) (tid : Nat) :
    PipelineState → List Op → Nat
  | _, [] => 0
  | s, op :: ops =>
    let s1 := applyOp hooks cfg s op
    (if (s.tasks_ tid).state_ ≠ StateFinished
        ∧ (s1.tasks_ tid).state_ = StateFinished then 1 else 0)
      + finishCount hooks cfg tid s1 ops

/-- Whether an operation is a task submission (schedule or
    schedule_and_wait). -/
def isSubmitOp : Op → Bool
  | Op.opSchedule _ => true
  | Op.opScheduleAndWait _ => true
  | _ => false

/-- The pipeline invariant: the pending_tasks_ counter counts the queue, the
    pending_frames_ counter never went negative, every FINISHED record holds
    the result its process_task_imp hook returned, and every queued record is
    SCHEDULED. -/
def Inv (hooks : Hooks) (s : PipelineState) : Prop :=
  s.pending_tasks_ = (s.task_queue_.length : Int)
  ∧ 0 ≤ s.pending_frames_
  ∧ (∀ tid, (s.tasks_ tid).state_ = StateFinished →
      (s.tasks_ tid).success_ = hooks.process_task_imp tid)
  ∧ (∀ tid, tid ∈ s.task_queue_ →
      (s.tasks_ tid).state_ = StateScheduled)

/-- One pipeline step is sound: it preserves the invariant, leaves FINISHED
    records untouched, and never moves a task state backwards. -/
def StepOk (hooks : Hooks) (s s1 : PipelineState) : Prop :=
  (Inv hooks s → Inv hooks s1)
  ∧ (Inv hooks s → ∀ tid, (s.tasks_ tid).state_ = StateFinished →
      s1.tasks_ tid = s.tasks_ tid)
  ∧ (∀ tid, stateRank (s.tasks_ tid).state_ ≤ stateRank (s1.tasks_ tid).state_)

/-- Event a occurs strictly before event b in the trace tr: every position
    holding a precedes every position holding b. -/
def eventOrdered (tr : List Event) (a b : Event) : Prop :=
  ∀ i j : Fin tr.length, tr.get i = a → tr.get j = b → (i : Nat) < (j : Nat)

/-- Concrete hooks used by the witness runs: a task succeeds iff its id is
    even, frames always succeed. -/
def hooksEx : Hooks :=
  { process_task_imp := fun tid => decide (tid % 2 = 0),
    process_frame_imp := fun _ => true }

/-- Concrete constants used by the witness runs. -/
def cfgEx : PipelineConsts :=
  { enable_precise_task_scheduling := true,
    min_samples_between_tasks_ := 0,
    max_samples_between_tasks_ := 1024,
    no_task_proc_half_interval_ := 1,
    expected_task_cost := 1,
    safety_margin := 1,
    nanos_per_sample := 1 }

/-- The witness constants with precise task scheduling disabled. -/
def cfgExSimple : PipelineConsts :=
  { cfgEx with enable_precise_task_scheduling := false }

/-- A witness state with one frame announced and one task (id 7) pending:
    reached by a frame entering and a submission arriving while the frame is
    pending. -/
def stateEx4 : PipelineState :=
  runOps hooksEx cfgEx PipelineState.init [Op.opFrameEnter, Op.opSchedule 7]

/-- A witness state whose clock admits interframe task processing. -/
def stateExTick : PipelineState :=
  runOps hooksEx cfgEx PipelineState.init [Op.opTick (-100)]

/-- A witness state sitting inside the no-task-proc window (now at the
    deadline) with one task pending. -/
def stateEx5 : PipelineState :=
  runOps hooksEx cfgEx stateEx4 [Op.opFrameLeave 0]

/-- A witness task carrying both a waiter and a handler. -/
def taskEx : Task :=
  { state_ := StateScheduled, success_ := false, sem_ := true, handler_ := true }

lemma set_task_same (tasks : Nat → Task) (tid : Nat) (t : Task) :
    set_task tasks tid t tid = t := by
  simp [set_task]

lemma set_task_other (tasks : Nat → Task) (tid x : Nat) (t : Task)
    (h : x ≠ tid) : set_task tasks tid t x = tasks x := by
  simp [set_task, h]

lemma stateRank_le_top (st : TaskState) : stateRank st ≤ 2 := by
  cases st <;> simp [stateRank]

lemma eq_finished_of_two_le (st : TaskState) (h : 2 ≤ stateRank st) :
    st = StateFinished := by
  cases st
  · simp [stateRank] at h
  · simp [stateRank] at h
  · rfl

lemma process_queue_other (hooks : Hooks) :
    ∀ (L : List Nat) (tasks : Nat → Task) (tid : Nat), tid ∉ L →
      (process_queue_ hooks L tasks).1 tid = tasks tid
  | [], _, _, _ => rfl
  | hd :: rest, tasks, tid, h => by
    simp only [List.mem_cons, not_or] at h
    simp only [process_queue_]
    rw [process_queue_other hooks rest _ tid h.2,
      set_task_other _ _ _ _ h.1]

lemma process_queue_cases (hooks : Hooks) :
    ∀ (L : List Nat) (tasks : Nat → Task) (tid : Nat),
      (process_queue_ hooks L tasks).1 tid = tasks tid ∨
        (((process_queue_ hooks L tasks).1 tid).state_ = StateFinished ∧
          ((process_queue_ hooks L tasks).1 tid).success_
            = hooks.process_task_imp tid)
  | [], _, _ => Or.inl rfl
  | hd :: rest, tasks, tid => by
    simp only [process_queue_]
    rcases process_queue_cases hooks rest
        (set_task tasks hd (process_task_ hooks hd (tasks hd)).1) tid with
      h | h
    · rw [h]
      by_cases htid : tid = hd
      · subst htid
        rw [set_task_same]
        exact Or.inr (by simp [process_task_])
      · rw [set_task_other _ _ _ _ htid]
        exact Or.inl rfl
    · exact Or.inr h

lemma countP_frame_process_task (hooks : Hooks) (tid : Nat) (t : Task) :
    ((process_task_ hooks tid t).2.countP Event.isFrameCall) = 0 := by
  rcases t with ⟨st, su, sem, hand⟩
  cases sem <;> cases hand <;>
    simp [process_task_, Event.isFrameCall, List.countP_append,
      List.countP_cons]

lemma countP_frame_process_queue (hooks : Hooks) :
    ∀ (L : List Nat) (tasks : Nat → Task),
      ((process_queue_ hooks L tasks).2.countP Event.isFrameCall) = 0
  | [], _ => rfl
  | hd :: rest, tasks => by
    simp only [process_queue_, List.countP_append]
    rw [countP_frame_process_task,
      countP_frame_process_queue hooks rest]

lemma not_frame_mem_process_queue (hooks : Hooks) (L : List Nat)
    (tasks : Nat → Task) (k : Nat)
    (h : Event.frameCall k ∈ (process_queue_ hooks L tasks).2) : False := by
  have h0 := countP_frame_process_queue hooks L tasks
  rw [List.countP_eq_zero] at h0
  have h1 := h0 (Event.frameCall k) h
  simp [Event.isFrameCall] at h1

lemma subframe_sizes_go_le (maxs : Nat) (hmax : maxs ≠ 0) :
    ∀ (fuel n : Nat), n ≤ fuel →
      ∀ k ∈ subframe_sizes_go maxs fuel n, k ≤ maxs
  | _, 0, _, k, hk => by simp [subframe_sizes_go] at hk
  | 0, n + 1, hfuel, k, hk => by omega
  | fuel + 1, n + 1, hfuel, k, hk => by
    simp only [subframe_sizes_go, if_neg hmax, List.mem_cons] at hk
    rcases hk with rfl | hk
    · exact min_le_left _ _
    · have hmin : 1 ≤ min maxs (n + 1) := by omega
      exact subframe_sizes_go_le maxs hmax fuel (n + 1 - min maxs (n + 1))
        (by omega) k hk

lemma subframe_sizes_le (maxs n : Nat) (hmax : maxs ≠ 0) :
    ∀ k ∈ subframe_sizes maxs n, k ≤ maxs :=
  subframe_sizes_go_le maxs hmax n n le_rfl

lemma subframe_sizes_go_sum (maxs : Nat) :
    ∀ (fuel n : Nat), n ≤ fuel → (subframe_sizes_go maxs fuel n).sum = n
  | _, 0, _ => by simp [subframe_sizes_go]
  | 0, n + 1, hfuel => by omega
  | fuel + 1, n + 1, hfuel => by
    by_cases hmax : maxs = 0
    · simp [subframe_sizes_go, hmax]
    · have hmin : 1 ≤ min maxs (n + 1) := by omega
      simp only [subframe_sizes_go, if_neg hmax, List.sum_cons]
      rw [subframe_sizes_go_sum maxs fuel (n + 1 - min maxs (n + 1))
        (by omega)]
      omega

lemma subframe_sizes_sum (maxs n : Nat) : (subframe_sizes maxs n).sum = n :=
  subframe_sizes_go_sum maxs n n le_rfl

lemma stepOk_refl (hooks : Hooks) (s : PipelineState) : StepOk hooks s s :=
  ⟨id, fun _ _ _ => rfl, fun _ => le_rfl⟩

lemma stepOk_trans {hooks : Hooks} {s1 s2 s3 : PipelineState}
    (h12 : StepOk hooks s1 s2) (h23 : StepOk hooks s2 s3) :
    StepOk hooks s1 s3 := by
  obtain ⟨i12, f12, m12⟩ := h12
  obtain ⟨i23, f23, m23⟩ := h23
  refine ⟨fun h => i23 (i12 h), fun h tid hf => ?_,
    fun tid => (m12 tid).trans (m23 tid)⟩
  have h2 : s2.tasks_ tid = s1.tasks_ tid := f12 h tid hf
  have hf2 : (s2.tasks_ tid).state_ = StateFinished := by rw [h2]; exact hf
  rw [f23 (i12 h) tid hf2, h2]

lemma stepOk_of_same (hooks : Hooks) (s s1 : PipelineState)
    (ht : s1.tasks_ = s.tasks_) (hq : s1.task_queue_ = s.task_queue_)
    (hp : s1.pending_tasks_ = s.pending_tasks_)
    (hf : 0 ≤ s.pending_frames_ → 0 ≤ s1.pending_frames_) :
    StepOk hooks s s1 := by
  refine ⟨fun h => ?_, fun _ tid _ => by rw [ht], fun tid => by rw [ht]⟩
  obtain ⟨h1, h2, h3, h4⟩ := h
  refine ⟨by rw [hp, hq]; exact h1, hf h2, by rw [ht]; exact h3, ?_⟩
  intro tid hmem
  rw [hq] at hmem
  rw [ht]
  exact h4 tid hmem

lemma stepOk_drainlike (hooks : Hooks) {s s1 : PipelineState}
    (ht : s1.tasks_ = (process_queue_ hooks s.task_queue_ s.tasks_).1)
    (hq : s1.task_queue_ = [])
    (hfr : s1.pending_frames_ = s.pending_frames_)
    (hp : s1.pending_tasks_
      = s.pending_tasks_ - (s.task_queue_.length : Int)) :
    StepOk hooks s s1 := by
  have hfin : ∀ tid, Inv hooks s → (s.tasks_ tid).state_ = StateFinished →
      s1.tasks_ tid = s.tasks_ tid := by
    intro tid h hf
    have hnot : tid ∉ s.task_queue_ := by
      intro hmem
      have := h.2.2.2 tid hmem
      rw [hf] at this
      exact TaskState.noConfusion this
    rw [ht, process_queue_other hooks _ _ _ hnot]
  refine ⟨fun h => ?_, fun h tid hf => hfin tid h hf, fun tid => ?_⟩
  · obtain ⟨h1, h2, h3, h4⟩ := h
    refine ⟨by rw [hp, hq, h1]; simp, by rw [hfr]; exact h2, ?_, ?_⟩
    · intro tid hf
      rw [ht] at hf ⊢
      rcases process_queue_cases hooks s.task_queue_ s.tasks_ tid with
        hc | hc
      · rw [hc] at hf ⊢
        exact h3 tid hf
      · exact hc.2
    · intro tid hmem
      rw [hq] at hmem
      exact absurd hmem (List.not_mem_nil tid)
  · rw [ht]
    rcases process_queue_cases hooks s.task_queue_ s.tasks_ tid with hc | hc
    · rw [hc]
    · rw [hc.1]
      exact stateRank_le_top _

lemma schedule_async_fields (s : PipelineState) :
    (schedule_async_task_processing_ s).tasks_ = s.tasks_
    ∧ (schedule_async_task_processing_ s).task_queue_ = s.task_queue_
    ∧ (schedule_async_task_processing_ s).pending_tasks_ = s.pending_tasks_
    ∧ (schedule_async_task_processing_ s).pending_frames_ = s.pending_frames_
    ∧ (schedule_async_task_processing_ s).now_ = s.now_
    ∧ (schedule_async_task_processing_ s).next_frame_deadline_
        = s.next_frame_deadline_ := by
  unfold schedule_async_task_processing_
  split
  · exact ⟨rfl, rfl, rfl, rfl, rfl, rfl⟩
  · split
    · exact ⟨rfl, rfl, rfl, rfl, rfl, rfl⟩
    · exact ⟨rfl, rfl, rfl, rfl, rfl, rfl⟩

lemma cancel_async_fields (s : PipelineState) :
    (cancel_async_task_processing_ s).tasks_ = s.tasks_
    ∧ (cancel_async_task_processing_ s).task_queue_ = s.task_queue_
    ∧ (cancel_async_task_processing_ s).pending_tasks_ = s.pending_tasks_
    ∧ (cancel_async_task_processing_ s).pending_frames_ = s.pending_frames_
    ∧ (cancel_async_task_processing_ s).now_ = s.now_
    ∧ (cancel_async_task_processing_ s).next_frame_deadline_
        = s.next_frame_deadline_ := by
  unfold cancel_async_task_processing_
  split
  · exact ⟨rfl, rfl, rfl, rfl, rfl, rfl⟩
  · exact ⟨rfl, rfl, rfl, rfl, rfl, rfl⟩

lemma stepOk_schedule_async (hooks : Hooks) (s : PipelineState) :
    StepOk hooks s (schedule_async_task_processing_ s) := by
  obtain ⟨h1, h2, h3, h4, -⟩ := schedule_async_fields s
  exact stepOk_of_same hooks _ _ h1 h2 h3 (by rw [h4]; exact id)

lemma stepOk_cancel_async (hooks : Hooks) (s : PipelineState) :
    StepOk hooks s (cancel_async_task_processing_ s) := by
  obtain ⟨h1, h2, h3, h4, -⟩ := cancel_async_fields s
  exact stepOk_of_same hooks _ _ h1 h2 h3 (by rw [h4]; exact id)

lemma stepOk_push (hooks : Hooks) (s : PipelineState) (tid0 : Nat)
    (hh hw : Bool) (hnew : (s.tasks_ tid0).state_ = StateNew) :
    StepOk hooks s (schedule_push_ s tid0 hh hw) := by
  have htid0 : ∀ tid, tid ≠ tid0 →
      (schedule_push_ s tid0 hh hw).tasks_ tid = s.tasks_ tid := by
    intro tid h
    simp only [schedule_push_]
    exact set_task_other _ _ _ _ h
  refine ⟨fun h => ?_, fun h tid hf => ?_, fun tid => ?_⟩
  · obtain ⟨h1, h2, h3, h4⟩ := h
    refine ⟨?_, h2, ?_, ?_⟩
    · simp only [schedule_push_, List.length_append, List.length_singleton]
      push_cast
      omega
    · intro tid hf
      by_cases htid : tid = tid0
      · subst htid
        simp only [schedule_push_, set_task_same] at hf
        exact TaskState.noConfusion hf
      · rw [htid0 tid htid] at hf ⊢
        exact h3 tid hf
    · intro tid hmem
      simp only [schedule_push_, List.mem_append,
        List.mem_singleton] at hmem
      by_cases htid : tid = tid0
      · subst htid
        simp only [schedule_push_, set_task_same]
      · rw [htid0 tid htid]
        rcases hmem with hmem | hmem
        · exact h4 tid hmem
        · exact absurd hmem htid
  · by_cases htid : tid = tid0
    · subst htid
      rw [hnew] at hf
      exact TaskState.noConfusion hf
    · rw [htid0 tid htid]
  · by_cases htid : tid = tid0
    · subst htid
      rw [hnew]
      simp only [schedule_push_, set_task_same]
      simp [stateRank]
    · rw [htid0 tid htid]

lemma stepOk_fast_path (hooks : Hooks) (s1 : PipelineState) :
    StepOk hooks s1 (schedule_fast_path_ hooks s1).1 := by
  have h1 : StepOk hooks s1
      ({ (drain_task_queue_ hooks s1).1 with stats_ := { s1.stats_ with
          task_processed_total :=
            s1.stats_.task_processed_total + s1.task_queue_.length,
          task_processed_in_place :=
            s1.stats_.task_processed_in_place + s1.task_queue_.length } }
        : PipelineState) := by
    exact stepOk_drainlike hooks rfl rfl rfl rfl
  refine stepOk_trans h1 ?_
  dsimp only [schedule_fast_path_]
  split
  · exact stepOk_schedule_async hooks _
  · exact stepOk_refl hooks _

lemma stepOk_schedule_core (hooks : Hooks) (cfg : PipelineConsts)
    (s : PipelineState) (tid0 : Nat) (hh hw : Bool) :
    StepOk hooks s
      (schedule_and_maybe_process_task_ hooks cfg s tid0 hh hw).2.1 := by
  unfold schedule_and_maybe_process_task_
  by_cases hnew : (s.tasks_ tid0).state_ ≠ StateNew
  · rw [if_pos hnew]
    exact stepOk_refl hooks s
  · rw [if_neg hnew]
    push_neg at hnew
    have hpush := stepOk_push hooks s tid0 hh hw hnew
    dsimp only []
    split
    · exact stepOk_trans hpush (stepOk_fast_path hooks _)
    · exact stepOk_trans hpush (stepOk_schedule_async hooks _)

lemma stepOk_process_tasks (hooks : Hooks) (cfg : PipelineConsts)
    (s : PipelineState) : StepOk hooks s (process_tasks hooks cfg s).1 := by
  unfold process_tasks
  dsimp only []
  split
  · exact stepOk_of_same hooks _ _ rfl rfl rfl id
  · split
    · exact stepOk_of_same hooks _ _ rfl rfl rfl id
    · split
      · exact stepOk_drainlike hooks rfl rfl rfl rfl
      · exact stepOk_trans
          (stepOk_of_same hooks _
            { s with processing_state_ := ProcNotScheduled }
            rfl rfl rfl id)
          (stepOk_schedule_async hooks
            { s with processing_state_ := ProcNotScheduled })

lemma stepOk_in_frame (hooks : Hooks) (cfg : PipelineConsts)
    (s : PipelineState) :
    StepOk hooks s (process_in_frame_tasks_ hooks cfg s).1
    ∧ (process_in_frame_tasks_ hooks cfg s).1.pending_frames_
        = s.pending_frames_ := by
  unfold process_in_frame_tasks_
  split
  · exact ⟨stepOk_drainlike hooks rfl rfl rfl rfl, rfl⟩
  · exact ⟨stepOk_refl hooks s, rfl⟩

lemma stepOk_subframes (hooks : Hooks) (cfg : PipelineConsts) :
    ∀ (sizes : List Nat) (s : PipelineState),
      StepOk hooks s (process_subframes hooks cfg sizes s).2.1
      ∧ (process_subframes hooks cfg sizes s).2.1.pending_frames_
          = s.pending_frames_
  | [], s => ⟨stepOk_refl hooks s, rfl⟩
  | sz :: rest, s => by
    have hacc : StepOk hooks s (account_subframe_ cfg s sz) :=
      stepOk_of_same hooks _ _ rfl rfl rfl id
    have hd := stepOk_in_frame hooks cfg (account_subframe_ cfg s sz)
    by_cases hrest : rest.isEmpty = true
    · simp only [process_subframes, if_pos hrest]
      obtain ⟨hr1, hr2⟩ :=
        stepOk_subframes hooks cfg rest (account_subframe_ cfg s sz)
      refine ⟨stepOk_trans hacc hr1, ?_⟩
      rw [hr2]
      rfl
    · simp only [process_subframes, if_neg hrest]
      obtain ⟨hr1, hr2⟩ := stepOk_subframes hooks cfg rest
        (process_in_frame_tasks_ hooks cfg (account_subframe_ cfg s sz)).1
      refine ⟨stepOk_trans hacc (stepOk_trans hd.1 hr1), ?_⟩
      rw [hr2, hd.2]
      rfl

lemma stepOk_frame_enter (hooks : Hooks) (s : PipelineState) :
    StepOk hooks s (process_frame_and_tasks_enter_ s) := by
  unfold process_frame_and_tasks_enter_
  refine stepOk_trans
    (stepOk_of_same hooks _ { s with
      pending_frames_ := s.pending_frames_ + 1 } rfl rfl rfl ?_)
    (stepOk_cancel_async hooks _)
  intro h
  dsimp only
  omega

lemma stepOk_frame_leave (hooks : Hooks) (cfg : PipelineConsts)
    (s : PipelineState) (n : Nat) :
    StepOk hooks s (process_frame_and_tasks_leave_ hooks cfg s n).2.1 := by
  unfold process_frame_and_tasks_leave_
  split
  · exact stepOk_refl hooks s
  · rename_i hguard
    dsimp only []
    split
    · rename_i hpre
      obtain ⟨hb, hbf⟩ := stepOk_subframes hooks cfg
        (subframe_sizes cfg.max_samples_between_tasks_ n)
        { s with next_frame_deadline_ :=
            update_next_frame_deadline_ cfg s.now_ n }
      have h01 : StepOk hooks s
          ({ s with next_frame_deadline_ :=
              update_next_frame_deadline_ cfg s.now_ n } : PipelineState) :=
        stepOk_of_same hooks _ _ rfl rfl rfl id
      have h12 := stepOk_trans h01 hb
      have h23 : StepOk hooks
          (process_subframes hooks cfg
            (subframe_sizes cfg.max_samples_between_tasks_ n)
            { s with next_frame_deadline_ :=
                update_next_frame_deadline_ cfg s.now_ n }).2.1
          ({ (process_subframes hooks cfg
            (subframe_sizes cfg.max_samples_between_tasks_ n)
            { s with next_frame_deadline_ :=
                update_next_frame_deadline_ cfg s.now_ n }).2.1 with
            pending_frames_ := (process_subframes hooks cfg
              (subframe_sizes cfg.max_samples_between_tasks_ n)
              { s with next_frame_deadline_ :=
                  update_next_frame_deadline_ cfg s.now_ n }).2.1.pending_frames_
                - 1 } : PipelineState) := by
        refine stepOk_of_same hooks _ _ rfl rfl rfl ?_
        intro h
        dsimp only
        rw [hbf]
        dsimp only
        omega
      refine stepOk_trans (stepOk_trans h12 h23) ?_
      split
      · exact stepOk_schedule_async hooks _
      · exact stepOk_of_same hooks _ _ rfl rfl rfl id
    · rename_i hpre
      have h23 : StepOk hooks s
          ({ s with
            next_frame_deadline_ := update_next_frame_deadline_ cfg s.now_ n,
            pending_frames_ := s.pending_frames_ - 1 } : PipelineState) := by
        refine stepOk_of_same hooks _ _ rfl rfl rfl ?_
        intro h
        dsimp only
        omega
      refine stepOk_trans h23 ?_
      split
      · exact stepOk_schedule_async hooks _
      · exact stepOk_of_same hooks _ _ rfl rfl rfl id

lemma stepOk_applyOp (hooks : Hooks) (cfg : PipelineConsts)
    (s : PipelineState) (op : Op) :
    StepOk hooks s (applyOp hooks cfg s op) := by
  cases op with
  | opTick t => exact stepOk_of_same hooks _ _ rfl rfl rfl id
  | opSchedule tid => exact stepOk_schedule_core hooks cfg s tid true false
  | opScheduleAndWait tid =>
    exact stepOk_schedule_core hooks cfg s tid false true
  | opProcessTasks => exact stepOk_process_tasks hooks cfg s
  | opFrameEnter => exact stepOk_frame_enter hooks s
  | opFrameLeave n => exact stepOk_frame_leave hooks cfg s n

lemma stepOk_runOps (hooks : Hooks) (cfg : PipelineConsts) :
    ∀ (ops : List Op) (s : PipelineState),
      StepOk hooks s (runOps hooks cfg s ops)
  | [], s => stepOk_refl hooks s
  | op :: ops, s =>
    stepOk_trans (stepOk_applyOp hooks cfg s op)
      (stepOk_runOps hooks cfg ops (applyOp hooks cfg s op))

lemma inv_init (hooks : Hooks) : Inv hooks PipelineState.init := by
  refine ⟨rfl, le_refl 0, ?_, ?_⟩
  · intro tid hf
    simp [PipelineState.init, Task.init] at hf
  · intro tid hmem
    simp [PipelineState.init] at hmem

lemma inv_runOps (hooks : Hooks) (cfg : PipelineConsts) (ops : List Op) :
    Inv hooks (runOps hooks cfg PipelineState.init ops) :=
  (stepOk_runOps hooks cfg ops PipelineState.init).1 (inv_init hooks)

lemma runOps_append (hooks : Hooks) (cfg : PipelineConsts) :
    ∀ (l1 l2 : List Op) (s : PipelineState),
      runOps hooks cfg s (l1 ++ l2)
        = runOps hooks cfg (runOps hooks cfg s l1) l2
  | [], _, _ => rfl
  | op :: l1, l2, s => by
    simp only [List.cons_append, runOps]
    exact runOps_append hooks cfg l1 l2 _

lemma finished_absorb_applyOp (hooks : Hooks) (cfg : PipelineConsts)
    (s : PipelineState) (op : Op) (tid : Nat)
    (h : (s.tasks_ tid).state_ = StateFinished) :
    ((applyOp hooks cfg s op).tasks_ tid).state_ = StateFinished := by
  have hm := (stepOk_applyOp hooks cfg s op).2.2 tid
  rw [h] at hm
  simp only [stateRank] at hm
  exact eq_finished_of_two_le _ hm

lemma finished_absorb_runOps (hooks : Hooks) (cfg : PipelineConsts)
    (s : PipelineState) (ops : List Op) (tid : Nat)
    (h : (s.tasks_ tid).state_ = StateFinished) :
    ((runOps hooks cfg s ops).tasks_ tid).state_ = StateFinished := by
  have hm := (stepOk_runOps hooks cfg ops s).2.2 tid
  rw [h] at hm
  simp only [stateRank] at hm
  exact eq_finished_of_two_le _ hm

lemma finishCount_eq (hooks : Hooks) (cfg : PipelineConsts) (tid : Nat) :
    ∀ (ops : List Op) (s : PipelineState),
      finishCount hooks cfg tid s ops
        = if (s.tasks_ tid).state_ ≠ StateFinished
              ∧ ((runOps hooks cfg s ops).tasks_ tid).state_ = StateFinished
          then 1 else 0
  | [], s => by
    simp only [finishCount, runOps]
    by_cases h : (s.tasks_ tid).state_ = StateFinished
    · rw [if_neg]
      simp [h]
    · rw [if_neg]
      simp [h]
  | op :: ops, s => by
    simp only [finishCount, runOps]
    rw [finishCount_eq hooks cfg tid ops (applyOp hooks cfg s op)]
    by_cases h0 : (s.tasks_ tid).state_ = StateFinished
    · have h1 := finished_absorb_applyOp hooks cfg s op tid h0
      rw [if_neg (by simp [h0]), if_neg (by simp [h1]), if_neg (by simp [h0])]
    · by_cases h1 : ((applyOp hooks cfg s op).tasks_ tid).state_
          = StateFinished
      · have h2 := finished_absorb_runOps hooks cfg
          (applyOp hooks cfg s op) ops tid h1
        rw [if_pos ⟨h0, h1⟩, if_neg (by simp [h1]), if_pos ⟨h0, h2⟩]
      · rw [if_neg (by simp [h0, h1])]
        simp only [zero_add]
        by_cases h2 : ((runOps hooks cfg (applyOp hooks cfg s op) ops).tasks_
            tid).state_ = StateFinished
        · rw [if_pos ⟨h1, h2⟩, if_pos ⟨h0, h2⟩]
        · rw [if_neg (by simp [h2]), if_neg (by simp [h2])]

lemma schedule_async_calls_of_frames (s : PipelineState)
    (h : 0 < s.pending_frames_) :
    schedule_async_task_processing_ s = s := by
  unfold schedule_async_task_processing_
  rw [if_pos h]

lemma schedule_core_frames (hooks : Hooks) (cfg : PipelineConsts)
    (s : PipelineState) (tid0 : Nat) (hh hw : Bool) :
    (schedule_and_maybe_process_task_ hooks cfg s tid0 hh hw).2.1.pending_frames_
      = s.pending_frames_ := by
  unfold schedule_and_maybe_process_task_
  split
  · rfl
  · dsimp only []
    split
    · dsimp only [schedule_fast_path_]
      split
      · exact (schedule_async_fields _).2.2.2.1
      · rfl
    · exact (schedule_async_fields _).2.2.2.1

lemma schedule_core_calls_of_frames (hooks : Hooks) (cfg : PipelineConsts)
    (s : PipelineState) (tid0 : Nat) (hh hw : Bool)
    (h : 0 < s.pending_frames_) :
    (schedule_and_maybe_process_task_ hooks cfg s tid0 hh
      hw).2.1.stats_.scheduler_calls = s.stats_.scheduler_calls := by
  unfold schedule_and_maybe_process_task_
  split
  · rfl
  · dsimp only []
    have hcond : ¬((decide ((schedule_push_ s tid0 hh hw).pending_frames_ = 0)
        && interframe_task_processing_allowed_ cfg
          (schedule_push_ s tid0 hh hw).now_
          (schedule_push_ s tid0 hh hw).next_frame_deadline_) = true) := by
      simp only [Bool.and_eq_true, decide_eq_true_eq, not_and]
      intro hzero
      exact absurd hzero h.ne'
    rw [if_neg hcond,
      schedule_async_calls_of_frames _
        (show (0:Int) < (schedule_push_ s tid0 hh hw).pending_frames_ from h)]
    rfl

lemma process_tasks_calls_of_frames (hooks : Hooks) (cfg : PipelineConsts)
    (s : PipelineState) (h : 0 < s.pending_frames_) :
    (process_tasks hooks cfg s).1.stats_.scheduler_calls
      = s.stats_.scheduler_calls := by
  unfold process_tasks
  dsimp only []
  by_cases h1 : s.pending_tasks_ ≤ 0
  · rw [if_pos h1]
  · rw [if_neg h1, if_pos (show (0:Int) < s.pending_frames_ from h)]

lemma process_tasks_frames (hooks : Hooks) (cfg : PipelineConsts)
    (s : PipelineState) :
    (process_tasks hooks cfg s).1.pending_frames_ = s.pending_frames_ := by
  unfold process_tasks
  dsimp only []
  by_cases h1 : s.pending_tasks_ ≤ 0
  · rw [if_pos h1]
  · rw [if_neg h1]
    by_cases h2 : (0:Int) < s.pending_frames_
    · rw [if_pos h2]
    · rw [if_neg h2]
      by_cases h3 : interframe_task_processing_allowed_ cfg s.now_
          s.next_frame_deadline_ = true
      · rw [if_pos h3]
        rfl
      · rw [if_neg h3]
        exact (schedule_async_fields _).2.2.2.1

lemma runOps_submit_calls (hooks : Hooks) (cfg : PipelineConsts) :
    ∀ (ops : List Op) (s : PipelineState),
      (∀ op ∈ ops, isSubmitOp op = true) → 0 < s.pending_frames_ →
      (runOps hooks cfg s ops).stats_.scheduler_calls
          = s.stats_.scheduler_calls
        ∧ (runOps hooks cfg s ops).pending_frames_ = s.pending_frames_
  | [], _, _, _ => ⟨rfl, rfl⟩
  | op :: ops, s, hops, hfr => by
    have hop := hops op (List.mem_cons_self op ops)
    have hrest : ∀ o ∈ ops, isSubmitOp o = true :=
      fun o ho => hops o (List.mem_cons_of_mem op ho)
    cases op with
    | opSchedule tid =>
      have hcalls := schedule_core_calls_of_frames hooks cfg s tid true false hfr
      have hframes := schedule_core_frames hooks cfg s tid true false
      have hrec := runOps_submit_calls hooks cfg ops
        (applyOp hooks cfg s (Op.opSchedule tid)) hrest
        (by simpa only [applyOp, hframes] using hfr)
      simp only [runOps]
      exact ⟨by rw [hrec.1]; exact hcalls,
        by rw [hrec.2]; exact hframes⟩
    | opScheduleAndWait tid =>
      have hcalls := schedule_core_calls_of_frames hooks cfg s tid false true hfr
      have hframes := schedule_core_frames hooks cfg s tid false true
      have hrec := runOps_submit_calls hooks cfg ops
        (applyOp hooks cfg s (Op.opScheduleAndWait tid)) hrest
        (by simpa only [applyOp, hframes] using hfr)
      simp only [runOps]
      exact ⟨by rw [hrec.1]; exact hcalls,
        by rw [hrec.2]; exact hframes⟩
    | opTick t => exact absurd hop (by simp [isSubmitOp])
    | opProcessTasks => exact absurd hop (by simp [isSubmitOp])
    | opFrameEnter => exact absurd hop (by simp [isSubmitOp])
    | opFrameLeave n => exact absurd hop (by simp [isSubmitOp])

lemma countP_frame_in_frame (hooks : Hooks) (cfg : PipelineConsts)
    (s : PipelineState) :
    ((process_in_frame_tasks_ hooks cfg s).2.countP Event.isFrameCall) = 0 := by
  unfold process_in_frame_tasks_
  split
  · exact countP_frame_process_queue hooks _ _
  · rfl

lemma not_frame_mem_in_frame (hooks : Hooks) (cfg : PipelineConsts)
    (s : PipelineState) (k : Nat)
    (h : Event.frameCall k ∈ (process_in_frame_tasks_ hooks cfg s).2) :
    False := by
  have h0 := countP_frame_in_frame hooks cfg s
  rw [List.countP_eq_zero] at h0
  have h1 := h0 _ h
  simp [Event.isFrameCall] at h1

lemma countP_frame_subframes (hooks : Hooks) (cfg : PipelineConsts) :
    ∀ (sizes : List Nat) (s : PipelineState),
      ((process_subframes hooks cfg sizes s).2.2.countP Event.isFrameCall)
        = sizes.length
  | [], _ => rfl
  | sz :: rest, s => by
    by_cases hrest : rest.isEmpty = true
    · simp only [process_subframes, if_pos hrest, List.countP_cons,
        List.countP_append, List.countP_nil]
      rw [countP_frame_subframes hooks cfg rest _]
      simp [Event.isFrameCall]
    · simp only [process_subframes, if_neg hrest, List.countP_cons,
        List.countP_append]
      rw [countP_frame_subframes hooks cfg rest _,
        countP_frame_in_frame hooks cfg _]
      simp [Event.isFrameCall]

lemma mem_frame_subframes (hooks : Hooks) (cfg : PipelineConsts) :
    ∀ (sizes : List Nat) (s : PipelineState) (k : Nat),
      Event.frameCall k ∈ (process_subframes hooks cfg sizes s).2.2 →
        k ∈ sizes
  | [], _, k, h => by simp [process_subframes] at h
  | sz :: rest, s, k, h => by
    by_cases hrest : rest.isEmpty = true
    · simp only [process_subframes, if_pos hrest, List.mem_cons,
        List.nil_append] at h
      rcases h with h | h
      · injection h with h2
        simp [h2]
      · exact List.mem_cons_of_mem sz
          (mem_frame_subframes hooks cfg rest _ k h)
    · simp only [process_subframes, if_neg hrest, List.mem_cons,
        List.mem_append] at h
      rcases h with h | h | h
      · injection h with h2
        simp [h2]
      · exact absurd h (fun hc => not_frame_mem_in_frame hooks cfg _ k hc)
      · exact List.mem_cons_of_mem sz
          (mem_frame_subframes hooks cfg rest _ k h)

lemma frame_leave_trace_precise (hooks : Hooks) (cfg : PipelineConsts)
    (s : PipelineState) (n : Nat)
    (hguard : ¬ s.pending_frames_ ≤ 0)
    (hpre : cfg.enable_precise_task_scheduling = true) :
    (process_frame_and_tasks_leave_ hooks cfg s n).2.2
      = (process_subframes hooks cfg
          (subframe_sizes cfg.max_samples_between_tasks_ n)
          { s with next_frame_deadline_ :=
              update_next_frame_deadline_ cfg s.now_ n }).2.2 := by
  unfold process_frame_and_tasks_leave_
  rw [if_neg hguard]
  dsimp only []
  rw [if_pos hpre]

lemma frame_enter_fields (s : PipelineState) :
    (process_frame_and_tasks_enter_ s).tasks_ = s.tasks_
    ∧ (process_frame_and_tasks_enter_ s).task_queue_ = s.task_queue_
    ∧ (process_frame_and_tasks_enter_ s).pending_tasks_ = s.pending_tasks_
    ∧ (process_frame_and_tasks_enter_ s).pending_frames_
        = s.pending_frames_ + 1
    ∧ (process_frame_and_tasks_enter_ s).now_ = s.now_
    ∧ (process_frame_and_tasks_enter_ s).next_frame_deadline_
        = s.next_frame_deadline_ := by
  unfold process_frame_and_tasks_enter_
  obtain ⟨c1, c2, c3, c4, c5, c6⟩ := cancel_async_fields
    { s with pending_frames_ := s.pending_frames_ + 1 }
  exact ⟨c1, c2, c3, by rw [c4], c5, c6⟩

lemma frame_enter_procstate (s : PipelineState)
    (h : s.processing_state_ ≠ ProcRunning) :
    (process_frame_and_tasks_enter_ s).processing_state_
      = ProcNotScheduled := by
  unfold process_frame_and_tasks_enter_ cancel_async_task_processing_
  split
  · rfl
  · rename_i hns
    cases hst : s.processing_state_ with
    | ProcNotScheduled => rfl
    | ProcScheduled => exact absurd hst hns
    | ProcRunning => exact absurd hst h

lemma frame_leave_simple_fields (hooks : Hooks) (cfg : PipelineConsts)
    (s : PipelineState) (n : Nat)
    (hguard : ¬ s.pending_frames_ ≤ 0)
    (hpre : cfg.enable_precise_task_scheduling = false) :
    (process_frame_and_tasks_leave_ hooks cfg s n).2.2 = [Event.frameCall n]
    ∧ (process_frame_and_tasks_leave_ hooks cfg s n).1
        = hooks.process_frame_imp n
    ∧ (process_frame_and_tasks_leave_ hooks cfg s n).2.1.task_queue_
        = s.task_queue_
    ∧ (process_frame_and_tasks_leave_ hooks cfg s n).2.1.tasks_ = s.tasks_
    ∧ (process_frame_and_tasks_leave_ hooks cfg s n).2.1.pending_tasks_
        = s.pending_tasks_
    ∧ (process_frame_and_tasks_leave_ hooks cfg s n).2.1.pending_frames_
        = s.pending_frames_ - 1
    ∧ (0 < s.pending_tasks_ → s.pending_frames_ = 1 →
        s.processing_state_ = ProcNotScheduled →
        (process_frame_and_tasks_leave_ hooks cfg s
            n).2.1.processing_state_ = ProcScheduled
        ∧ (process_frame_and_tasks_leave_ hooks cfg s
            n).2.1.stats_.scheduler_calls
          = s.stats_.scheduler_calls + 1) := by
  unfold process_frame_and_tasks_leave_
  rw [if_neg hguard]
  dsimp only [process_frame_and_tasks_simple_]
  rw [if_neg (show ¬ cfg.enable_precise_task_scheduling = true by
    simp [hpre])]
  by_cases hp : (0:Int) < s.pending_tasks_
  · rw [if_pos hp]
    obtain ⟨f1, f2, f3, f4, -⟩ := schedule_async_fields
      ({ s with
        next_frame_deadline_ := update_next_frame_deadline_ cfg s.now_ n,
        pending_frames_ := s.pending_frames_ - 1 } : PipelineState)
    refine ⟨rfl, rfl, f2, f1, f3, by rw [f4], ?_⟩
    intro hp0 hf1 hps
    unfold schedule_async_task_processing_
    rw [if_neg (show ¬ (0:Int) <
        ({ s with
          next_frame_deadline_ := update_next_frame_deadline_ cfg s.now_ n,
          pending_frames_ := s.pending_frames_ - 1 }
            : PipelineState).pending_frames_ by
      dsimp only
      omega)]
    rw [if_pos (show
        ({ s with
          next_frame_deadline_ := update_next_frame_deadline_ cfg s.now_ n,
          pending_frames_ := s.pending_frames_ - 1 }
            : PipelineState).processing_state_ = ProcNotScheduled from hps)]
    exact ⟨rfl, rfl⟩
  · rw [if_neg hp]
    exact ⟨rfl, rfl, rfl, rfl, rfl, rfl, fun hp0 _ _ => absurd hp0 hp⟩

lemma schedule_core_reject (hooks : Hooks) (cfg : PipelineConsts)
    (s : PipelineState) (tid : Nat) (hh hw : Bool)
    (h : (s.tasks_ tid).state_ ≠ StateNew) :
    schedule_and_maybe_process_task_ hooks cfg s tid hh hw
      = (some SubmitError.alreadyScheduled, s, []) := by
  unfold schedule_and_maybe_process_task_
  rw [if_pos h]

lemma schedule_core_accept_none (hooks : Hooks) (cfg : PipelineConsts)
    (s : PipelineState) (tid : Nat) (hh hw : Bool)
    (h : (s.tasks_ tid).state_ = StateNew) :
    (schedule_and_maybe_process_task_ hooks cfg s tid hh hw).1 = none := by
  unfold schedule_and_maybe_process_task_
  rw [if_neg (fun hn => hn h)]
  dsimp only []
  split
  · rfl
  · rfl

/-- C2: submission (schedule as well as schedule_and_wait, both of which
    submit through schedule_and_maybe_process_task_) fails with
    AlreadyScheduled exactly when the submitted task's state is not NEW; a
    rejected submission leaves the pipeline untouched, and only a NEW task
    is enqueued, at the queue tail and marked SCHEDULED. -/
theorem c2_submit_rejects_iff_not_new (hooks : Hooks) (cfg : PipelineConsts)
    (s : PipelineState) (tid : Nat) (hh hw : Bool) :
    ((schedule_and_maybe_process_task_ hooks cfg s tid hh hw).1
        = some SubmitError.alreadyScheduled
      ↔ (s.tasks_ tid).state_ ≠ StateNew)
    ∧ ((s.tasks_ tid).state_ ≠ StateNew →
        (schedule_and_maybe_process_task_ hooks cfg s tid hh hw).2.1 = s)
    ∧ ((s.tasks_ tid).state_ = StateNew →
        (schedule_and_maybe_process_task_ hooks cfg s tid hh hw).1 = none
        ∧ (schedule_push_ s tid hh hw).task_queue_ = s.task_queue_ ++ [tid]
        ∧ ((schedule_push_ s tid hh hw).tasks_ tid).state_
            = StateScheduled) := by
  refine ⟨⟨?_, ?_⟩, ?_, ?_⟩
  · intro h1
    by_contra hnew
    rw [schedule_core_accept_none hooks cfg s tid hh hw hnew] at h1
    exact Option.noConfusion h1
  · intro hnew
    rw [schedule_core_reject hooks cfg s tid hh hw hnew]
  · intro hnew
    rw [schedule_core_reject hooks cfg s tid hh hw hnew]
  · intro hnew
    exact ⟨schedule_core_accept_none hooks cfg s tid hh hw hnew, rfl,
      by simp [schedule_push_, set_task_same]⟩

/-- Witness for C2: resubmitting the already scheduled task 7 of stateEx4 is
    rejected with AlreadyScheduled leaving the state unchanged, while
    submitting the fresh task 0 is accepted. -/
theorem c2_submit_rejects_iff_not_new_witness :
    (schedule_and_maybe_process_task_ hooksEx cfgEx stateEx4 7 true
        false).1 = some SubmitError.alreadyScheduled
    ∧ (schedule_and_maybe_process_task_ hooksEx cfgEx stateEx4 7 true
        false).2.1 = stateEx4
    ∧ (schedule_and_maybe_process_task_ hooksEx cfgEx stateEx4 0 true
        false).1 = none := by
  have h7 := c2_submit_rejects_iff_not_new hooksEx cfgEx stateEx4 7 true false
  have h0 := c2_submit_rejects_iff_not_new hooksEx cfgEx stateEx4 0 true false
  exact ⟨h7.1.mpr (by decide), h7.2.1 (by decide), (h0.2.2 (by decide)).1⟩

/-- C3: along every run from the initial pipeline a task's state only
    advances along NEW, SCHEDULED, FINISHED (the rank never decreases under
    any further operations), and the number of transitions into FINISHED is
    exactly one when the run ends with the task FINISHED and zero otherwise;
    in particular a task transitions to FINISHED at most once. -/
theorem c3_state_monotonic_single_finish (hooks : Hooks)
    (cfg : PipelineConsts) (tid : Nat) (ops extra : List Op) :
    stateRank ((runOps hooks cfg PipelineState.init ops).tasks_ tid).state_
      ≤ stateRank ((runOps hooks cfg PipelineState.init
          (ops ++ extra)).tasks_ tid).state_
    ∧ finishCount hooks cfg tid PipelineState.init ops
      = (if ((runOps hooks cfg PipelineState.init ops).tasks_ tid).state_
            = StateFinished then 1 else 0) := by
  constructor
  · rw [runOps_append]
    exact (stepOk_runOps hooks cfg extra _).2.2 tid
  · rw [finishCount_eq]
    have hinit : (PipelineState.init.tasks_ tid).state_ ≠ StateFinished :=
      fun hc => TaskState.noConfusion hc
    by_cases h : ((runOps hooks cfg PipelineState.init ops).tasks_
        tid).state_ = StateFinished
    · rw [if_pos ⟨hinit, h⟩, if_pos h]
    · rw [if_neg (fun hc => h hc.2), if_neg h]

/-- C5: interframe task processing is admitted at time t iff t plus the
    expected task cost is before the next frame deadline minus the
    no-task-proc half interval; a time point lies inside the no-task-proc
    window iff its distance to the deadline is at most the half interval;
    admission excludes the window; and process_tasks starts no task (its
    event trace is empty) while the clock sits inside the window. -/
theorem c5_interframe_window_admission (hooks : Hooks) (cfg : PipelineConsts)
    (t d : Int) (s : PipelineState) :
    (interframe_task_processing_allowed_ cfg t d = true ↔
      t + cfg.expected_task_cost < d - cfg.no_task_proc_half_interval_)
    ∧ (in_no_task_proc_window cfg t d = true ↔
      |t - d| ≤ cfg.no_task_proc_half_interval_)
    ∧ (0 ≤ cfg.expected_task_cost →
      interframe_task_processing_allowed_ cfg t d = true →
      in_no_task_proc_window cfg t d = false)
    ∧ (0 ≤ cfg.expected_task_cost →
      in_no_task_proc_window cfg s.now_ s.next_frame_deadline_ = true →
      (process_tasks hooks cfg s).2 = []) := by
  have key : ∀ (a b : Int), 0 ≤ cfg.expected_task_cost →
      interframe_task_processing_allowed_ cfg a b = true →
      in_no_task_proc_window cfg a b = false := by
    intro a b hc hall
    simp only [interframe_task_processing_allowed_,
      decide_eq_true_eq] at hall
    simp only [in_no_task_proc_window, decide_eq_false_iff_not, not_le]
    have h2 : cfg.no_task_proc_half_interval_ < b - a := by omega
    calc cfg.no_task_proc_half_interval_ < b - a := h2
      _ ≤ |b - a| := le_abs_self _
      _ = |a - b| := (abs_sub_comm b a)
  refine ⟨by simp [interframe_task_processing_allowed_],
    by simp [in_no_task_proc_window], key t d, ?_⟩
  intro hc hwin
  have hall : ¬ interframe_task_processing_allowed_ cfg s.now_
      s.next_frame_deadline_ = true := by
    intro hcon
    rw [key s.now_ s.next_frame_deadline_ hc hcon] at hwin
    exact Bool.noConfusion hwin
  unfold process_tasks
  dsimp only []
  by_cases h1 : s.pending_tasks_ ≤ 0
  · rw [if_pos h1]
  · rw [if_neg h1]
    by_cases h2 : (0:Int) < s.pending_frames_
    · rw [if_pos h2]
    · rw [if_neg h2, if_neg hall]

/-- Witness for C5: at the concrete constants, the admitted time -10 lies
    outside the window, and process_tasks emits no event from stateEx5 whose
    clock sits inside the window. -/
theorem c5_interframe_window_admission_witness :
    in_no_task_proc_window cfgEx (-10) 0 = false
    ∧ (process_tasks hooksEx cfgEx stateEx5).2 = [] := by
  have h := c5_interframe_window_admission hooksEx cfgEx (-10) 0 stateEx5
  exact ⟨h.2.2.1 (by decide) (by decide), h.2.2.2 (by decide) (by decide)⟩

/-- C9: in every state reachable from the initial pipeline the
    pending_tasks_ and pending_frames_ counters are nonnegative,
    pending_tasks_ counts exactly the queued tasks, and num_pending_tasks
    and num_pending_frames report the two counters. -/
theorem c9_counters_nonnegative (hooks : Hooks) (cfg : PipelineConsts)
    (ops : List Op) :
    0 ≤ (runOps hooks cfg PipelineState.init ops).pending_tasks_
    ∧ 0 ≤ (runOps hooks cfg PipelineState.init ops).pending_frames_
    ∧ (runOps hooks cfg PipelineState.init ops).pending_tasks_
      = ((runOps hooks cfg PipelineState.init ops).task_queue_.length : Int)
    ∧ ((num_pending_tasks (runOps hooks cfg PipelineState.init ops)) : Int)
      = (runOps hooks cfg PipelineState.init ops).pending_tasks_
    ∧ ((num_pending_frames (runOps hooks cfg PipelineState.init ops)) : Int)
      = (runOps hooks cfg PipelineState.init ops).pending_frames_ := by
  obtain ⟨h1, h2, -, -⟩ := inv_runOps hooks cfg ops
  have hnn : 0 ≤ (runOps hooks cfg PipelineState.init ops).pending_tasks_ :=
    by rw [h1]; exact Int.natCast_nonneg _
  exact ⟨hnn, h2, h1, Int.toNat_of_nonneg hnn, Int.toNat_of_nonneg h2⟩

/-- C10: Task.success returns false for every task whose state is NEW or
    SCHEDULED; and once a task of a reachable pipeline is FINISHED, no
    further operation changes its record, so repeated Task.success reads
    return the same value. -/
theorem c10_success_false_until_finished (t : Task) (hooks : Hooks)
    (cfg : PipelineConsts) (ops : List Op) (op : Op) (tid : Nat) :
    ((t.state_ = StateNew ∨ t.state_ = StateScheduled) →
      Task.success t = false)
    ∧ (((runOps hooks cfg PipelineState.init ops).tasks_ tid).state_
          = StateFinished →
        (applyOp hooks cfg (runOps hooks cfg PipelineState.init ops)
            op).tasks_ tid
          = (runOps hooks cfg PipelineState.init ops).tasks_ tid
        ∧ Task.success ((applyOp hooks cfg
            (runOps hooks cfg PipelineState.init ops) op).tasks_ tid)
          = Task.success
            ((runOps hooks cfg PipelineState.init ops).tasks_ tid)) := by
  constructor
  · intro h
    rcases h with h | h <;> simp [Task.success, h]
  · intro hf
    have heq := (stepOk_applyOp hooks cfg _ op).2.1
      (inv_runOps hooks cfg ops) tid hf
    exact ⟨heq, by rw [heq]⟩

/-- Witness for C10: the freshly constructed task reads success false, and
    the record of the finished task 0 is untouched by a further operation. -/
theorem c10_success_false_until_finished_witness :
    Task.success Task.init = false
    ∧ (applyOp hooksEx cfgEx
        (runOps hooksEx cfgEx PipelineState.init
          [Op.opTick (-100), Op.opSchedule 0])
        (Op.opSchedule 0)).tasks_ 0
      = (runOps hooksEx cfgEx PipelineState.init
          [Op.opTick (-100), Op.opSchedule 0]).tasks_ 0 := by
  have h := c10_success_false_until_finished Task.init hooksEx cfgEx
    [Op.opTick (-100), Op.opSchedule 0] (Op.opSchedule 0) 0
  exact ⟨h.1 (Or.inl rfl), (h.2 (by decide)).1⟩

/-- C1: whenever schedule_and_wait returns a value to the blocked caller,
    the returned boolean equals the result the process_task_imp hook
    returned for the task, which is exactly the success result stored at
    completion: at the return point the task is FINISHED and its success_
    field is the returned value. -/
theorem c1_schedule_and_wait_returns_success (hooks : Hooks)
    (cfg : PipelineConsts) (ops laterOps : List Op) (tid : Nat) (b : Bool) :
    (schedule_and_wait hooks cfg (runOps hooks cfg PipelineState.init ops)
        tid laterOps).1 = some b →
    b = hooks.process_task_imp tid
    ∧ ((schedule_and_wait hooks cfg
        (runOps hooks cfg PipelineState.init ops) tid
          laterOps).2.tasks_ tid).state_ = StateFinished
    ∧ b = ((schedule_and_wait hooks cfg
        (runOps hooks cfg PipelineState.init ops) tid
          laterOps).2.tasks_ tid).success_ := by
  intro hret
  have hinv0 : Inv hooks (runOps hooks cfg PipelineState.init ops) :=
    inv_runOps hooks cfg ops
  have hinv1 : Inv hooks (schedule_and_maybe_process_task_ hooks cfg
      (runOps hooks cfg PipelineState.init ops) tid false true).2.1 :=
    (stepOk_schedule_core hooks cfg _ tid false true).1 hinv0
  have hinv2 : Inv hooks (runOps hooks cfg
      (schedule_and_maybe_process_task_ hooks cfg
        (runOps hooks cfg PipelineState.init ops) tid false true).2.1
      laterOps) :=
    (stepOk_runOps hooks cfg laterOps _).1 hinv1
  unfold schedule_and_wait at hret ⊢
  dsimp only [] at hret ⊢
  cases hsub : (schedule_and_maybe_process_task_ hooks cfg
      (runOps hooks cfg PipelineState.init ops) tid false true).1 with
  | some e =>
    simp only [hsub] at hret
    exact Option.noConfusion hret
  | none =>
    simp only [hsub] at hret ⊢
    by_cases hfin : ((runOps hooks cfg
        (schedule_and_maybe_process_task_ hooks cfg
          (runOps hooks cfg PipelineState.init ops) tid false true).2.1
        laterOps).tasks_ tid).state_ = StateFinished
    · rw [if_pos hfin] at hret ⊢
      have hb : ((runOps hooks cfg
          (schedule_and_maybe_process_task_ hooks cfg
            (runOps hooks cfg PipelineState.init ops) tid false
              true).2.1 laterOps).tasks_ tid).success_ = b :=
        Option.some.inj hret
      refine ⟨?_, hfin, hb.symm⟩
      rw [← hb]
      exact hinv2.2.2.1 tid hfin
    · rw [if_neg hfin] at hret
      exact Option.noConfusion hret

/-- Witness for C1: from a state whose clock admits in-place processing,
    schedule_and_wait on task 0 returns exactly the hook result true. -/
theorem c1_schedule_and_wait_returns_success_witness :
    true = hooksEx.process_task_imp 0
    ∧ ((schedule_and_wait hooksEx cfgEx
        (runOps hooksEx cfgEx PipelineState.init [Op.opTick (-100)]) 0
          []).2.tasks_ 0).state_ = StateFinished := by
  have h := c1_schedule_and_wait_returns_success hooksEx cfgEx
    [Op.opTick (-100)] [] 0 true (by decide)
  exact ⟨h.1, h.2.1⟩

/-- C4: while a frame is pending, submitters (any sequence of schedule and
    schedule_and_wait operations) and process_tasks never invoke the
    external scheduler: scheduler_calls is unchanged.  A frame leaving with
    tasks remaining, being the only pending frame and no asynchronous
    processing scheduled, calls schedule_task_processing exactly once. -/
theorem c4_priority_no_scheduler_call (hooks : Hooks) (cfg : PipelineConsts)
    (s : PipelineState) (ops : List Op) (n : Nat) :
    (0 < s.pending_frames_ → (∀ op ∈ ops, isSubmitOp op = true) →
      (runOps hooks cfg s ops).stats_.scheduler_calls
        = s.stats_.scheduler_calls)
    ∧ (0 < s.pending_frames_ →
      (process_tasks hooks cfg s).1.stats_.scheduler_calls
        = s.stats_.scheduler_calls)
    ∧ (s.pending_frames_ = 1 → 0 < s.pending_tasks_ →
      s.processing_state_ = ProcNotScheduled →
      cfg.enable_precise_task_scheduling = false →
      (process_frame_and_tasks_leave_ hooks cfg s
          n).2.1.stats_.scheduler_calls
        = s.stats_.scheduler_calls + 1
      ∧ (process_frame_and_tasks_leave_ hooks cfg s
          n).2.1.processing_state_ = ProcScheduled) := by
  refine ⟨fun hf hops => (runOps_submit_calls hooks cfg ops s hops hf).1,
    fun hf => process_tasks_calls_of_frames hooks cfg s hf,
    fun hf1 hp hps hpre => ?_⟩
  have hguard : ¬ s.pending_frames_ ≤ 0 := by omega
  obtain ⟨-, -, -, -, -, -, h7⟩ :=
    frame_leave_simple_fields hooks cfg s n hguard hpre
  obtain ⟨ha, hb⟩ := h7 hp hf1 hps
  exact ⟨hb, ha⟩

/-- Witness for C4: two submissions arriving while stateEx4 has one pending
    frame leave scheduler_calls unchanged, process_tasks leaves it
    unchanged, and the frame leaving schedules asynchronous processing
    exactly once. -/
theorem c4_priority_no_scheduler_call_witness :
    (runOps hooksEx cfgExSimple stateEx4
        [Op.opSchedule 1, Op.opSchedule 2]).stats_.scheduler_calls
      = stateEx4.stats_.scheduler_calls
    ∧ (process_tasks hooksEx cfgExSimple stateEx4).1.stats_.scheduler_calls
      = stateEx4.stats_.scheduler_calls
    ∧ (process_frame_and_tasks_leave_ hooksEx cfgExSimple stateEx4
        100).2.1.stats_.scheduler_calls
      = stateEx4.stats_.scheduler_calls + 1 := by
  have h := c4_priority_no_scheduler_call hooksEx cfgExSimple stateEx4
    [Op.opSchedule 1, Op.opSchedule 2] 100
  exact ⟨h.1 (by decide) (by decide), h.2.1 (by decide),
    (h.2.2 (by decide) (by decide) (by decide) (by decide)).1⟩

/-- C6: with precise scheduling enabled, process_frame_and_tasks splits the
    frame into sub-frames of at most max_samples_between_tasks samples whose
    sizes sum to the whole frame, invoking process_frame_imp exactly once
    per sub-frame; a 4096-sample frame with max 1024 yields exactly four
    sub-frame calls. -/
theorem c6_precise_splits_frame (hooks : Hooks) (cfg : PipelineConsts)
    (s : PipelineState) (n : Nat)
    (hpre : cfg.enable_precise_task_scheduling = true)
    (hmax : cfg.max_samples_between_tasks_ ≠ 0)
    (hfr : 0 ≤ s.pending_frames_) :
    ((process_frame_and_tasks hooks cfg s n).2.2.countP Event.isFrameCall)
      = (subframe_sizes cfg.max_samples_between_tasks_ n).length
    ∧ (∀ k, Event.frameCall k ∈ (process_frame_and_tasks hooks cfg s
        n).2.2 → k ≤ cfg.max_samples_between_tasks_)
    ∧ (subframe_sizes cfg.max_samples_between_tasks_ n).sum = n
    ∧ (cfg.max_samples_between_tasks_ = 1024 → n = 4096 →
      ((process_frame_and_tasks hooks cfg s n).2.2.countP
        Event.isFrameCall) = 4) := by
  have hguard : ¬ (process_frame_and_tasks_enter_ s).pending_frames_ ≤ 0 := by
    rw [(frame_enter_fields s).2.2.2.1]
    omega
  have htr := frame_leave_trace_precise hooks cfg
    (process_frame_and_tasks_enter_ s) n hguard hpre
  unfold process_frame_and_tasks
  rw [htr]
  refine ⟨countP_frame_subframes hooks cfg _ _, ?_,
    subframe_sizes_sum _ _, ?_⟩
  · intro k hk
    exact subframe_sizes_le _ _ hmax k
      (mem_frame_subframes hooks cfg _ _ k hk)
  · intro h1024 h4096
    rw [countP_frame_subframes hooks cfg _ _, h1024, h4096]
    decide

/-- Witness for C6: from the initial pipeline, a 4096-sample frame with
    max_samples_between_tasks 1024 makes exactly four process_frame_imp
    calls. -/
theorem c6_precise_splits_frame_witness :
    ((process_frame_and_tasks hooksEx cfgEx PipelineState.init
        4096).2.2.countP Event.isFrameCall) = 4 := by
  have h := c6_precise_splits_frame hooksEx cfgEx PipelineState.init 4096
    (by decide) (by decide) (by decide)
  exact h.2.2.2 rfl rfl

/-- C7: with precise scheduling disabled, process_frame_and_tasks does not
    split the frame and processes no task inside the call: its event trace
    is exactly one process_frame_imp call on the whole frame, whose result
    it returns; the queue and the task records are untouched, and pending
    tasks are deferred by arranging asynchronous processing on exit. -/
theorem c7_simple_no_split (hooks : Hooks) (cfg : PipelineConsts)
    (s : PipelineState) (n : Nat)
    (hpre : cfg.enable_precise_task_scheduling = false)
    (hfr : 0 ≤ s.pending_frames_) :
    (process_frame_and_tasks hooks cfg s n).2.2 = [Event.frameCall n]
    ∧ (process_frame_and_tasks hooks cfg s n).1 = hooks.process_frame_imp n
    ∧ (process_frame_and_tasks hooks cfg s n).2.1.task_queue_
        = s.task_queue_
    ∧ (process_frame_and_tasks hooks cfg s n).2.1.tasks_ = s.tasks_
    ∧ (0 < s.pending_tasks_ → s.pending_frames_ = 0 →
        s.processing_state_ ≠ ProcRunning →
        (process_frame_and_tasks hooks cfg s n).2.1.processing_state_
          = ProcScheduled) := by
  have he := frame_enter_fields s
  have hguard : ¬ (process_frame_and_tasks_enter_ s).pending_frames_ ≤ 0 := by
    rw [he.2.2.2.1]
    omega
  obtain ⟨t1, t2, t3, t4, t5, t6, t7⟩ := frame_leave_simple_fields hooks cfg
    (process_frame_and_tasks_enter_ s) n hguard hpre
  unfold process_frame_and_tasks
  refine ⟨t1, t2, by rw [t3, he.2.1], by rw [t4, he.1], ?_⟩
  intro hp h0 hrun
  have h7 := t7 (by rw [he.2.2.1]; exact hp)
    (by rw [he.2.2.2.1, h0]; decide)
    (frame_enter_procstate s hrun)
  exact h7.1

/-- Witness for C7: with precise scheduling disabled, a 4096-sample frame
    from stateExTick makes exactly one whole-frame call. -/
theorem c7_simple_no_split_witness :
    (process_frame_and_tasks hooksEx cfgExSimple stateExTick 4096).2.2
      = [Event.frameCall 4096] := by
  have h := c7_simple_no_split hooksEx cfgExSimple stateExTick 4096
    (by decide) (by decide)
  exact h.1

lemma eventOrdered_nil (a b : Event) : eventOrdered [] a b := by
  intro i j
  exact absurd i.2 (by simp)

lemma eventOrdered_cons (e : Event) (tr : List Event) (a b : Event)
    (hb : e = b → a ∉ (e :: tr)) (h : eventOrdered tr a b) :
    eventOrdered (e :: tr) a b := by
  intro i j hi hj
  rcases i with ⟨iv, hiv⟩
  rcases j with ⟨jv, hjv⟩
  cases jv with
  | zero =>
    exfalso
    exact hb hj (hi ▸ List.get_mem _ _ _)
  | succ jv2 =>
    cases iv with
    | zero => exact Nat.succ_pos jv2
    | succ iv2 =>
      have hlt := h ⟨iv2, Nat.lt_of_succ_lt_succ hiv⟩
        ⟨jv2, Nat.lt_of_succ_lt_succ hjv⟩ hi hj
      exact Nat.succ_lt_succ hlt

/-- C8: the completion protocol of process_task_ performs its steps in a
    fixed order: the success result (the hook's return) is stored before
    state is set to FINISHED; only after the FINISHED store is the waiter
    posted (when present), followed by the handler invocation (when
    present); the waiter always precedes the handler; and the completed
    record carries the hook result in FINISHED state. -/
theorem c8_completion_order (hooks : Hooks) (tid : Nat) (t : Task) :
    eventOrdered (process_task_ hooks tid t).2
        (Event.storeSuccess tid (hooks.process_task_imp tid))
        (Event.storeFinished tid)
    ∧ eventOrdered (process_task_ hooks tid t).2 (Event.storeFinished tid)
        (Event.postWaiter tid)
    ∧ eventOrdered (process_task_ hooks tid t).2 (Event.storeFinished tid)
        (Event.callHandler tid)
    ∧ eventOrdered (process_task_ hooks tid t).2 (Event.postWaiter tid)
        (Event.callHandler tid)
    ∧ (t.sem_ = true → Event.postWaiter tid ∈ (process_task_ hooks tid t).2)
    ∧ (t.handler_ = true →
        Event.callHandler tid ∈ (process_task_ hooks tid t).2)
    ∧ (process_task_ hooks tid t).1.success_ = hooks.process_task_imp tid
    ∧ (process_task_ hooks tid t).1.state_ = StateFinished := by
  rcases t with ⟨st, su, sem, hand⟩
  cases sem <;> cases hand <;>
    refine ⟨?_, ?_, ?_, ?_, ?_, ?_, rfl, rfl⟩ <;>
    first
      | (intro hmem; exact Bool.noConfusion hmem)
      | (intro hmem; simp [process_task_]; done)
      | (simp only [process_task_]
         simp only [Bool.false_eq_true, if_false, if_true,
           List.append_nil, List.cons_append, List.nil_append]
         repeat
           first
             | exact eventOrdered_nil _ _
             | refine eventOrdered_cons _ _ _ _ (by intro hc; simp_all) ?_)

/-- Witness for C8: completing the witness task (with waiter and handler)
    emits the waiter post and the handler call, and leaves the record
    FINISHED carrying the hook result. -/
theorem c8_completion_order_witness :
    Event.postWaiter 0 ∈ (process_task_ hooksEx 0 taskEx).2
    ∧ Event.callHandler 0 ∈ (process_task_ hooksEx 0 taskEx).2
    ∧ (process_task_ hooksEx 0 taskEx).1.state_ = StateFinished
    ∧ (process_task_ hooksEx 0 taskEx).1.success_
        = hooksEx.process_task_imp 0 := by
  have h := c8_completion_order hooksEx 0 taskEx
  exact ⟨h.2.2.2.2.1 (by decide), h.2.2.2.2.2.1 (by decide),
    h.2.2.2.2.2.2.2, h.2.2.2.2.2.2.1⟩

end TaskPipeline
